import Mathlib

/-!
Verification development for the `repocontext` tool.

The Go sources are shallowly embedded as pure Lean functions:
  * `internal/llm/llm.go`   — the size-budgeted file Selector (`SelectFiles`);
  * `internal/git/git.go`   — the repository Scanner (`GetFiles`) and the
    binary-file Classifier (`isBinaryFile`, `calculateEntropy`);
  * `internal/config/config.go` — configuration construction (`Config.New`);
  * `internal/docs/docs.go` — the documentation cache / generator
    (`isCacheValid`, `LoadOrGenerateDocs`, `CleanupDuplicates`).

External effects are made explicit:
  * a Go map `map[string]*RepoFile` is embedded as an association list with
    distinct keys; the list order stands for the (unspecified, run-varying)
    iteration order of the Go map;
  * the blocking text-generation call is an injected value or function
    (`String → Except String String`), and each embedded operation reports how
    many such calls it performed;
  * lines printed with `fmt.Printf` warnings become explicit log lists;
  * the on-disk docs directory is a record of `Option String` file contents.
-/

namespace RepoContext

/-! ## Selector: internal/llm/llm.go -/

/-- A catalog entry is a repository-relative path together with its byte size
(`RepoFile.Size`, a Go `int64`).  The catalog `map[string]*RepoFile` is
embedded as an association list; the `Content` field is irrelevant to the
Selector and omitted. -/
abbrev Catalog := List (String × Int)

/-- `getTotalSize` from llm.go: sums the `Size` field over the catalog. -/
def getTotalSize (files : Catalog) : Int :=
  (files.map Prod.snd).sum

/-- Go map indexing `files[file]`: first matching key wins (keys are distinct
in a real map, so this is the unique match). -/
def lookupFile : Catalog → String → Option Int
  | [], _ => none
  | (p, sz) :: rest, q => if p = q then some sz else lookupFile rest q

/-- Go `strings.Split(s, "\n")` on the character list of `s`. -/
def splitLines : List Char → List (List Char)
  | [] => [[]]
  | c :: rest =>
    if c = '\n' then [] :: splitLines rest
    else
      match splitLines rest with
      | [] => [[c]]
      | l :: ls => (c :: l) :: ls

/-- The white-space predicate of Go `unicode.IsSpace`, used by
`strings.TrimSpace`. -/
def isGoSpace (c : Char) : Bool :=
  c == ' ' || c == '\t' || c == '\n' || c.toNat == 11 || c.toNat == 12 ||
  c == '\r' || c.toNat == 0x85 || c.toNat == 0xA0 || c.toNat == 0x1680 ||
  (decide (0x2000 ≤ c.toNat) && decide (c.toNat ≤ 0x200A)) ||
  c.toNat == 0x2028 || c.toNat == 0x2029 || c.toNat == 0x202F ||
  c.toNat == 0x205F || c.toNat == 0x3000

/-- Go `strings.TrimSpace`: drop white space from both ends. -/
def trimSpace (l : List Char) : List Char :=
  ((l.dropWhile isGoSpace).reverse.dropWhile isGoSpace).reverse

/-- `file[:strings.Index(file, " (")]` when the substring occurs, identity
otherwise: cut the line at the first occurrence of a trailing size
annotation such as `" (123 bytes)"`. -/
def cutAtSizeAnnot : List Char → List Char
  | [] => []
  | ' ' :: '(' :: _ => []
  | c :: rest => c :: cutAtSizeAnnot rest

/-- One response line after the Selector's per-line normalisation:
`strings.TrimSpace`, then strip a `" ("` size annotation. -/
def cleanLine (l : List Char) : String :=
  String.mk (cutAtSizeAnnot (trimSpace l))

/-- Accumulator of the response-processing loop of `SelectFiles`:
`selectedFiles`, `selectedSize`, plus the two kinds of lines the loop prints
(`Warning: File not found` and `Skipping …: would exceed size limit`),
recorded as explicit logs. -/
structure SelState where
  selected : List String
  size : Int
  warnings : List String
  skips : List String

/-- The response-processing loop of `SelectFiles` (llm.go lines 136–158):
for each line of the completion — skip blanks, strip size annotations, drop
(and warn about) paths missing from the catalog, greedily accept a known path
unless it would push the running total above `maxSize`. -/
def processLines (files : Catalog) (maxSize : Int) :
    List (List Char) → SelState → SelState
  | [], st => st
  | line :: rest, st =>
    let file := cleanLine line
    if file = "" then processLines files maxSize rest st
    else
      match lookupFile files file with
      | some sz =>
        if st.size + sz > maxSize then
          processLines files maxSize rest { st with skips := st.skips ++ [file] }
        else
          processLines files maxSize rest
            { st with selected := st.selected ++ [file], size := st.size + sz }
      | none =>
        processLines files maxSize rest { st with warnings := st.warnings ++ [file] }

/-- Observable outcome of one `SelectFiles` run: the returned
`([]string, int64, error)` triple, whether the external text-generation call
was issued, and the warning/skip lines printed while parsing the response. -/
structure SelectOutcome where
  result : Except String (List String × Int)
  llmCalled : Bool
  warnings : List String
  skips : List String

/-- `SelectFiles` from llm.go with the model completion injected as the
`completion` argument.  If the catalog already fits the budget every path is
returned (in map iteration order, i.e. catalog list order) with no external
call; otherwise the external call is issued and its response is processed
greedily; an empty selection is the error
`"no files were selected within size constraints"`. -/
def SelectFiles (files : Catalog) (maxSize : Int) (completion : String) :
    SelectOutcome :=
  let totalSize := getTotalSize files
  if totalSize ≤ maxSize then
    { result := .ok (files.map Prod.fst, totalSize)
      llmCalled := false, warnings := [], skips := [] }
  else
    let st := processLines files maxSize (splitLines completion.data)
      { selected := [], size := 0, warnings := [], skips := [] }
    if st.selected = [] then
      { result := .error "no files were selected within size constraints"
        llmCalled := true, warnings := st.warnings, skips := st.skips }
    else
      { result := .ok (st.selected, st.size)
        llmCalled := true, warnings := st.warnings, skips := st.skips }

/-- A path is a key of the catalog iff Go map indexing finds it. -/
lemma mem_keys_iff_lookup_isSome (files : Catalog) (p : String) :
    p ∈ files.map Prod.fst ↔ (lookupFile files p).isSome := by
  induction files with
  | nil => simp [lookupFile]
  | cons hd tl ih =>
    obtain ⟨q, sz⟩ := hd
    by_cases hq : q = p
    · subst hq
      simp [lookupFile]
    · simp only [List.map_cons, List.mem_cons, lookupFile, if_neg hq]
      rw [← ih]
      simp only [or_iff_right_iff_imp]
      intro h
      exact absurd h.symm hq

/-- Invariant of the response-processing loop: selected paths are catalog
keys, a non-empty selection keeps the running total within the budget, and
every warned path is absent from the catalog. -/
lemma processLines_inv (files : Catalog) (maxSize : Int)
    (lines : List (List Char)) (st : SelState)
    (hsel : ∀ p ∈ st.selected, (lookupFile files p).isSome)
    (hsz : st.selected ≠ [] → st.size ≤ maxSize)
    (hw : ∀ p ∈ st.warnings, lookupFile files p = none) :
    (∀ p ∈ (processLines files maxSize lines st).selected,
        (lookupFile files p).isSome) ∧
    ((processLines files maxSize lines st).selected ≠ [] →
        (processLines files maxSize lines st).size ≤ maxSize) ∧
    (∀ p ∈ (processLines files maxSize lines st).warnings,
        lookupFile files p = none) := by
  induction lines generalizing st with
  | nil => exact ⟨hsel, hsz, hw⟩
  | cons line rest ih =>
    by_cases hblank : cleanLine line = ""
    · rw [processLines, if_pos hblank]
      exact ih st hsel hsz hw
    · cases hlk : lookupFile files (cleanLine line) with
      | some sz =>
        have hstep : processLines files maxSize (line :: rest) st =
            if st.size + sz > maxSize then
              processLines files maxSize rest
                { st with skips := st.skips ++ [cleanLine line] }
            else
              processLines files maxSize rest
                { st with
                  selected := st.selected ++ [cleanLine line]
                  size := st.size + sz } := by
          rw [processLines, if_neg hblank, hlk]
        rw [hstep]
        by_cases hover : st.size + sz > maxSize
        · rw [if_pos hover]
          exact ih _ hsel hsz hw
        · rw [if_neg hover]
          refine ih _ ?_ ?_ hw
          · intro p hp
            rcases List.mem_append.mp hp with h | h
            · exact hsel p h
            · rw [List.mem_singleton.mp h, hlk]
              rfl
          · intro _
            exact le_of_not_lt hover
      | none =>
        have hstep : processLines files maxSize (line :: rest) st =
            processLines files maxSize rest
              { st with warnings := st.warnings ++ [cleanLine line] } := by
          rw [processLines, if_neg hblank, hlk]
        rw [hstep]
        refine ih _ hsel hsz ?_
        intro p hp
        rcases List.mem_append.mp hp with h | h
        · exact hw p h
        · rw [List.mem_singleton.mp h]
          exact hlk

/-- C1: every successful `SelectFiles` run returns a cumulative size of at
most the budget `maxSize`; every returned path is a key of the original
catalog; every response path missing from the catalog is logged as a warning
and excluded from the selection rather than aborting the run (the run still
returns `ok`). -/
theorem SelectFiles_budget_invariant (files : Catalog) (maxSize : Int)
    (completion : String) (sel : List String) (total : Int)
    (h : (SelectFiles files maxSize completion).result = .ok (sel, total)) :
    total ≤ maxSize ∧
    (∀ p ∈ sel, p ∈ files.map Prod.fst) ∧
    (∀ p ∈ (SelectFiles files maxSize completion).warnings,
        lookupFile files p = none ∧ p ∉ sel) := by
  unfold SelectFiles at h ⊢
  by_cases hfit : getTotalSize files ≤ maxSize
  · rw [if_pos hfit] at h ⊢
    simp only [Except.ok.injEq, Prod.mk.injEq] at h
    obtain ⟨hsel, htot⟩ := h
    subst hsel
    subst htot
    refine ⟨hfit, fun p hp => hp, ?_⟩
    intro p hp
    simp at hp
  · rw [if_neg hfit] at h ⊢
    set st := processLines files maxSize (splitLines completion.data)
      { selected := [], size := 0, warnings := [], skips := [] } with hst
    have hinv := processLines_inv files maxSize (splitLines completion.data)
      { selected := [], size := 0, warnings := [], skips := [] }
      (by intro p hp; simp at hp)
      (by intro h; simp at h)
      (by intro p hp; simp at hp)
    rw [← hst] at hinv
    by_cases hempty : st.selected = []
    · rw [if_pos hempty] at h
      exact absurd h (by simp)
    · rw [if_neg hempty] at h ⊢
      simp only [Except.ok.injEq, Prod.mk.injEq] at h
      obtain ⟨hsel, htot⟩ := h
      subst hsel
      subst htot
      refine ⟨hinv.2.1 hempty, ?_, ?_⟩
      · intro p hp
        exact (mem_keys_iff_lookup_isSome files p).mpr (hinv.1 p hp)
      · intro p hp
        have hnone := hinv.2.2 p hp
        refine ⟨hnone, fun hmem => ?_⟩
        have := hinv.1 p hmem
        rw [hnone] at this
        exact absurd this (by simp)

/-- Witness for C1 at a concrete run: catalog `{a.txt ↦ 100, c.txt ↦ 150}`,
budget 200, canned response `"bogus\nc.txt"`. -/
theorem SelectFiles_budget_invariant_witness :
    (150 : Int) ≤ 200 ∧
    (∀ p ∈ ["c.txt"],
        p ∈ ([("a.txt", (100 : Int)), ("c.txt", 150)].map Prod.fst)) ∧
    (∀ p ∈ (SelectFiles [("a.txt", 100), ("c.txt", 150)] 200
        "bogus\nc.txt").warnings,
        lookupFile [("a.txt", 100), ("c.txt", 150)] p = none ∧
          p ∉ ["c.txt"]) :=
  SelectFiles_budget_invariant [("a.txt", 100), ("c.txt", 150)] 200
    "bogus\nc.txt" ["c.txt"] 150 rfl

/-- C4: when the whole catalog fits the budget, `SelectFiles` returns every
catalog path with the exact total size and issues no external
text-generation call. -/
theorem SelectFiles_passthrough (files : Catalog) (maxSize : Int)
    (completion : String) (h : getTotalSize files ≤ maxSize) :
    (SelectFiles files maxSize completion).result
        = .ok (files.map Prod.fst, getTotalSize files) ∧
    (SelectFiles files maxSize completion).llmCalled = false ∧
    (∀ p, (lookupFile files p).isSome ↔ p ∈ files.map Prod.fst) := by
  refine ⟨?_, ?_, fun p => (mem_keys_iff_lookup_isSome files p).symm⟩
  · unfold SelectFiles
    rw [if_pos h]
  · unfold SelectFiles
    rw [if_pos h]

/-- Witness for C4: catalog `{a.md ↦ 3, b.md ↦ 4}` with budget 10. -/
theorem SelectFiles_passthrough_witness :
    (SelectFiles [("a.md", 3), ("b.md", 4)] 10 "canned").result
        = .ok (["a.md", "b.md"], 7) ∧
    (SelectFiles [("a.md", 3), ("b.md", 4)] 10 "canned").llmCalled = false := by
  have h := SelectFiles_passthrough [("a.md", 3), ("b.md", 4)] 10 "canned"
    (by decide)
  exact ⟨h.1, h.2.1⟩

/-- C5: concrete scenario from the spec.  Catalog `{a.txt ↦ 100, c.txt ↦ 150}`
(the binary `b.bin` was already excluded by the Scanner), budget 200: the
total 250 exceeds the budget, so the external call is issued; on response
`"c.txt\na.txt"` the Selector accepts `c.txt` (150), skips `a.txt` because
150 + 100 = 250 > 200, and returns `(["c.txt"], 150)`. -/
theorem SelectFiles_scenario :
    getTotalSize [("a.txt", 100), ("c.txt", 150)] = 250 ∧
    ¬ getTotalSize [("a.txt", 100), ("c.txt", 150)] ≤ 200 ∧
    (SelectFiles [("a.txt", 100), ("c.txt", 150)] 200 "c.txt\na.txt").llmCalled
        = true ∧
    (SelectFiles [("a.txt", 100), ("c.txt", 150)] 200 "c.txt\na.txt").result
        = .ok (["c.txt"], 150) ∧
    (SelectFiles [("a.txt", 100), ("c.txt", 150)] 200 "c.txt\na.txt").skips
        = ["a.txt"] :=
  ⟨rfl, by decide, rfl, rfl, rfl⟩

/-- Reordering the catalog (two iteration orders of the same Go map) does not
change its total size. -/
lemma getTotalSize_perm {f₁ f₂ : Catalog} (hp : f₁.Perm f₂) :
    getTotalSize f₁ = getTotalSize f₂ :=
  List.Perm.sum_eq (hp.map Prod.snd)

/-- With distinct keys, Go map indexing is insensitive to the iteration
order chosen to represent the map. -/
lemma lookupFile_perm {f₁ f₂ : Catalog} (hp : f₁.Perm f₂) :
    (f₁.map Prod.fst).Nodup → ∀ q, lookupFile f₁ q = lookupFile f₂ q := by
  induction hp with
  | nil =>
    intro _ q
    rfl
  | cons x hp ih =>
    intro hnd q
    obtain ⟨p, sz⟩ := x
    simp only [List.map_cons, List.nodup_cons] at hnd
    simp only [lookupFile]
    by_cases hpq : p = q
    · rw [if_pos hpq, if_pos hpq]
    · rw [if_neg hpq, if_neg hpq]
      exact ih hnd.2 q
  | swap x y l =>
    intro hnd q
    obtain ⟨px, sx⟩ := x
    obtain ⟨py, sy⟩ := y
    simp only [List.map_cons, List.nodup_cons, List.mem_cons] at hnd
    have hne : py ≠ px := fun h => hnd.1 (Or.inl h)
    by_cases h1 : py = q
    · subst h1
      simp [lookupFile, Ne.symm hne]
    · by_cases h2 : px = q
      · subst h2
        simp [lookupFile, h1]
      · simp [lookupFile, h1, h2]
  | trans hp₁ hp₂ ih₁ ih₂ =>
    intro hnd q
    have hnd₂ := (List.Perm.nodup_iff (hp₁.map Prod.fst)).mp hnd
    rw [ih₁ hnd q, ih₂ hnd₂ q]

/-- The response-processing loop only consults the catalog through map
indexing, so two catalogs with identical indexing behave identically. -/
lemma processLines_congr (f₁ f₂ : Catalog) (maxSize : Int)
    (hlook : ∀ q, lookupFile f₁ q = lookupFile f₂ q)
    (lines : List (List Char)) (st : SelState) :
    processLines f₁ maxSize lines st = processLines f₂ maxSize lines st := by
  induction lines generalizing st with
  | nil => rfl
  | cons line rest ih =>
    by_cases hblank : cleanLine line = ""
    · rw [processLines, processLines, if_pos hblank, if_pos hblank, ih]
    · cases hlk : lookupFile f₂ (cleanLine line) with
      | some sz =>
        have h1 : lookupFile f₁ (cleanLine line) = some sz := (hlook _).trans hlk
        have e1 : processLines f₁ maxSize (line :: rest) st =
            if st.size + sz > maxSize then
              processLines f₁ maxSize rest
                { st with skips := st.skips ++ [cleanLine line] }
            else
              processLines f₁ maxSize rest
                { st with
                  selected := st.selected ++ [cleanLine line]
                  size := st.size + sz } := by
          rw [processLines, if_neg hblank, h1]
        have e2 : processLines f₂ maxSize (line :: rest) st =
            if st.size + sz > maxSize then
              processLines f₂ maxSize rest
                { st with skips := st.skips ++ [cleanLine line] }
            else
              processLines f₂ maxSize rest
                { st with
                  selected := st.selected ++ [cleanLine line]
                  size := st.size + sz } := by
          rw [processLines, if_neg hblank, hlk]
        rw [e1, e2]
        by_cases hover : st.size + sz > maxSize
        · rw [if_pos hover, if_pos hover, ih]
        · rw [if_neg hover, if_neg hover, ih]
      | none =>
        have h1 : lookupFile f₁ (cleanLine line) = none := (hlook _).trans hlk
        have e1 : processLines f₁ maxSize (line :: rest) st =
            processLines f₁ maxSize rest
              { st with warnings := st.warnings ++ [cleanLine line] } := by
          rw [processLines, if_neg hblank, h1]
        have e2 : processLines f₂ maxSize (line :: rest) st =
            processLines f₂ maxSize rest
              { st with warnings := st.warnings ++ [cleanLine line] } := by
          rw [processLines, if_neg hblank, hlk]
        rw [e1, e2, ih]

/-- C8 counterexample: the claim asserts that two runs on identical inputs
return identical selected path lists, including on the under-budget
pass-through path.  But on that path `SelectFiles` returns the paths in Go
map iteration order, which is not fixed: the two association lists below
represent the same map (they are permutations of each other), yet the
returned path lists differ in order. -/
theorem SelectFiles_order_counterexample :
    List.Perm [("a.txt", (1 : Int)), ("b.txt", 1)] [("b.txt", 1), ("a.txt", 1)] ∧
    (SelectFiles [("a.txt", 1), ("b.txt", 1)] 10 "canned").result
        = .ok (["a.txt", "b.txt"], 2) ∧
    (SelectFiles [("b.txt", 1), ("a.txt", 1)] 10 "canned").result
        = .ok (["b.txt", "a.txt"], 2) ∧
    (["a.txt", "b.txt"] : List String) ≠ ["b.txt", "a.txt"] :=
  ⟨List.Perm.swap ("b.txt", 1) ("a.txt", 1) [], rfl, rfl, by decide⟩

/-- C8 amended: for a fixed budget and canned response, the Selector is
deterministic up to the Go map iteration order of the catalog: across any two
iteration orders of the same catalog (permutations with distinct keys), the
external-call decision agrees, the cumulative size agrees, on the
under-budget pass-through path the returned lists are permutations of each
other, and on the over-budget branch the whole outcome (paths, size,
warnings, skips) is fully identical. -/
theorem SelectFiles_deterministic_up_to_order (f₁ f₂ : Catalog)
    (maxSize : Int) (completion : String) (hp : f₁.Perm f₂)
    (hnd : (f₁.map Prod.fst).Nodup) :
    (SelectFiles f₁ maxSize completion).llmCalled
        = (SelectFiles f₂ maxSize completion).llmCalled ∧
    (getTotalSize f₁ ≤ maxSize →
      (SelectFiles f₁ maxSize completion).result
          = .ok (f₁.map Prod.fst, getTotalSize f₁) ∧
      (SelectFiles f₂ maxSize completion).result
          = .ok (f₂.map Prod.fst, getTotalSize f₁) ∧
      (f₁.map Prod.fst).Perm (f₂.map Prod.fst)) ∧
    (¬ getTotalSize f₁ ≤ maxSize →
      SelectFiles f₁ maxSize completion = SelectFiles f₂ maxSize completion) := by
  have htot : getTotalSize f₁ = getTotalSize f₂ := getTotalSize_perm hp
  have hlook : ∀ q, lookupFile f₁ q = lookupFile f₂ q := lookupFile_perm hp hnd
  have hproc : ∀ st, processLines f₁ maxSize (splitLines completion.data) st
      = processLines f₂ maxSize (splitLines completion.data) st :=
    processLines_congr f₁ f₂ maxSize hlook (splitLines completion.data)
  refine ⟨?_, ?_, ?_⟩
  · unfold SelectFiles
    rw [← htot]
    by_cases hfit : getTotalSize f₁ ≤ maxSize
    · rw [if_pos hfit, if_pos hfit]
    · rw [if_neg hfit, if_neg hfit, hproc]
  · intro hfit
    refine ⟨?_, ?_, hp.map Prod.fst⟩
    · unfold SelectFiles
      rw [if_pos hfit]
    · unfold SelectFiles
      rw [← htot, if_pos hfit]
  · intro hfit
    unfold SelectFiles
    rw [← htot, if_neg hfit, if_neg hfit, hproc]

/-- Witness for the amended C8 at a concrete pair of iteration orders of the
map `{a.txt ↦ 1, b.txt ↦ 1}` with budget 10. -/
theorem SelectFiles_deterministic_up_to_order_witness :
    (SelectFiles [("a.txt", (1 : Int)), ("b.txt", 1)] 10 "canned").llmCalled
        = (SelectFiles [("b.txt", 1), ("a.txt", 1)] 10 "canned").llmCalled ∧
    (SelectFiles [("a.txt", (1 : Int)), ("b.txt", 1)] 10 "canned").result
        = .ok ([("a.txt", (1 : Int)), ("b.txt", 1)].map Prod.fst,
            getTotalSize [("a.txt", (1 : Int)), ("b.txt", 1)]) ∧
    ([("a.txt", (1 : Int)), ("b.txt", 1)].map Prod.fst).Perm
        ([("b.txt", (1 : Int)), ("a.txt", 1)].map Prod.fst) :=
  have h := SelectFiles_deterministic_up_to_order
    [("a.txt", 1), ("b.txt", 1)] [("b.txt", 1), ("a.txt", 1)] 10 "canned"
    (List.Perm.swap ("b.txt", 1) ("a.txt", 1) []) (by decide)
  ⟨h.1, (h.2.1 (by decide)).1, (h.2.1 (by decide)).2.2⟩

/-! ## Repository Scanner: internal/git/git.go, `GetFiles`

The `gocodewalker` producer goroutine and the consuming loop form a
two-stage pipeline over a bounded channel; we linearise it as a list of
events.  A walk failure is delivered to the error handler installed with
`SetErrorHandler`; a delivered file carries the results of the subsequent
`os.Stat`, `isBinaryFile` and `filepath.Rel` calls. -/

/-- Result of `os.Stat` on a delivered file. -/
structure StatInfo where
  isDir : Bool
  size : Int

/-- A file delivered by the walker, with the outcomes of the per-file
operations the consuming loop performs on it. -/
structure FileEntry where
  location : String
  statRes : Except String StatInfo
  binRes : Except String Bool
  relRes : Except String String

/-- One event of the walk: either an error reported to the walker's error
handler, or a delivered file. -/
inductive WalkEvent where
  | walkError (e : String)
  | file (f : FileEntry)

/-- Go map assignment `files[relPath] = …`: replace the binding if the key
exists, append otherwise. -/
def insertFile : List (String × Int) → String → Int → List (String × Int)
  | [], p, sz => [(p, sz)]
  | (q, s) :: rest, p, sz =>
    if q = p then (q, sz) :: rest else (q, s) :: insertFile rest p sz

/-- Effect of one event on the consuming loop: continue silently, print a
warning and continue, or record a file. -/
inductive FileAction where
  | skip
  | warn (msg : String)
  | add (rel : String) (size : Int)

/-- One iteration of the `GetFiles` consuming loop plus the error handler
(git.go lines 177–220), branch by branch: a walk error is printed as a
warning and the walk continues (the handler returns `true`); a stat failure,
a directory, a binary file, or a relative-path failure is skipped with a
plain `continue`; a binary-check failure is printed as a warning and skipped;
a surviving file is recorded under its relative path with its size. -/
def classifyEvent : WalkEvent → FileAction
  | .walkError e => .warn ("Warning: " ++ e)
  | .file f =>
    match f.statRes with
    | .error _ => .skip
    | .ok info =>
      if info.isDir then .skip
      else
        match f.binRes with
        | .error e =>
          .warn ("Warning: Could not check if file is binary "
            ++ f.location ++ ": " ++ e)
        | .ok true => .skip
        | .ok false =>
          match f.relRes with
          | .error _ => .skip
          | .ok rel => .add rel info.size

/-- The consuming loop of `GetFiles`: fold the per-event effects over the
event stream, accumulating the catalog and the warning log. -/
def getFilesLoop :
    List WalkEvent → List (String × Int) → List String →
      List (String × Int) × List String
  | [], acc, log => (acc, log)
  | ev :: rest, acc, log =>
    match classifyEvent ev with
    | .skip => getFilesLoop rest acc log
    | .warn m => getFilesLoop rest acc (log ++ [m])
    | .add rel sz => getFilesLoop rest (insertFile acc rel sz) log

/-- `GetFiles` from git.go: consume the whole event stream and return the
catalog together with the Go `error` result (the second component is the
warning log printed to standard error).  The source ends with
`return files, nil` and contains no other return of the error component. -/
def GetFiles (events : List WalkEvent) :
    Except String (List (String × Int)) × List String :=
  let (files, log) := getFilesLoop events [] []
  (.ok files, log)

/-- C2 counterexample: a failure of the directory walk itself does not make
`GetFiles` return an error — the error handler logs the warning, returns
`true` (continue), and `GetFiles` still returns `ok` with an empty catalog. -/
theorem GetFiles_walk_failure_counterexample :
    (GetFiles [.walkError "walk failed"]).fst
        = Except.ok ([] : List (String × Int)) ∧
    (GetFiles [.walkError "walk failed"]).snd = ["Warning: walk failed"] :=
  ⟨rfl, rfl⟩

/-- The log only grows along the consuming loop. -/
lemma getFilesLoop_log_mono (events : List WalkEvent)
    (acc : List (String × Int)) (log : List String) (s : String)
    (hs : s ∈ log) : s ∈ (getFilesLoop events acc log).snd := by
  induction events generalizing acc log with
  | nil => exact hs
  | cons ev rest ih =>
    cases hc : classifyEvent ev with
    | skip =>
      have hstep : getFilesLoop (ev :: rest) acc log
          = getFilesLoop rest acc log := by
        rw [getFilesLoop, hc]
      rw [hstep]
      exact ih acc log hs
    | warn m =>
      have hstep : getFilesLoop (ev :: rest) acc log
          = getFilesLoop rest acc (log ++ [m]) := by
        rw [getFilesLoop, hc]
      rw [hstep]
      exact ih acc _ (List.mem_append.mpr (Or.inl hs))
    | add rel sz =>
      have hstep : getFilesLoop (ev :: rest) acc log
          = getFilesLoop rest (insertFile acc rel sz) log := by
        rw [getFilesLoop, hc]
      rw [hstep]
      exact ih _ log hs

/-- Every warning produced by an event of the stream ends up in the log. -/
lemma getFilesLoop_warn_logged (events : List WalkEvent)
    (acc : List (String × Int)) (log : List String) (ev : WalkEvent)
    (m : String) (hev : ev ∈ events) (hc : classifyEvent ev = .warn m) :
    m ∈ (getFilesLoop events acc log).snd := by
  induction events generalizing acc log with
  | nil => simp at hev
  | cons hd rest ih =>
    rcases List.mem_cons.mp hev with h | h
    · have hstep : getFilesLoop (hd :: rest) acc log
          = getFilesLoop rest acc (log ++ [m]) := by
        rw [getFilesLoop, ← h, hc]
      rw [hstep]
      exact getFilesLoop_log_mono rest acc _ m (by simp)
    · cases hc2 : classifyEvent hd with
      | skip =>
        have hstep : getFilesLoop (hd :: rest) acc log
            = getFilesLoop rest acc log := by
          rw [getFilesLoop, hc2]
        rw [hstep]
        exact ih acc log h
      | warn m2 =>
        have hstep : getFilesLoop (hd :: rest) acc log
            = getFilesLoop rest acc (log ++ [m2]) := by
          rw [getFilesLoop, hc2]
        rw [hstep]
        exact ih acc _ h
      | add rel sz =>
        have hstep : getFilesLoop (hd :: rest) acc log
            = getFilesLoop rest (insertFile acc rel sz) log := by
          rw [getFilesLoop, hc2]
        rw [hstep]
        exact ih _ log h

/-- Every pair present after a Go map assignment was present before or is
the assigned binding. -/
lemma mem_insertFile (acc : List (String × Int)) (p rel : String)
    (sz s : Int) (h : (p, s) ∈ insertFile acc rel sz) :
    (p, s) ∈ acc ∨ (p = rel ∧ s = sz) := by
  induction acc with
  | nil =>
    simp only [insertFile, List.mem_singleton] at h
    right
    exact ⟨(Prod.ext_iff.mp h).1, (Prod.ext_iff.mp h).2⟩
  | cons hd tl ih =>
    obtain ⟨q, v⟩ := hd
    by_cases hq : q = rel
    · rw [insertFile, if_pos hq] at h
      rcases List.mem_cons.mp h with h | h
      · right
        refine ⟨?_, (Prod.ext_iff.mp h).2⟩
        exact ((Prod.ext_iff.mp h).1).trans hq
      · exact Or.inl (List.mem_cons_of_mem _ h)
    · rw [insertFile, if_neg hq] at h
      rcases List.mem_cons.mp h with h | h
      · exact Or.inl (List.mem_cons.mpr (Or.inl h))
      · rcases ih h with h | h
        · exact Or.inl (List.mem_cons_of_mem _ h)
        · exact Or.inr h

/-- Every catalog entry produced by the loop was already in the accumulator
or was recorded by some event of the stream. -/
lemma getFilesLoop_mem (events : List WalkEvent)
    (acc : List (String × Int)) (log : List String) (p : String) (s : Int)
    (h : (p, s) ∈ (getFilesLoop events acc log).fst) :
    (p, s) ∈ acc ∨ ∃ ev ∈ events, classifyEvent ev = .add p s := by
  induction events generalizing acc log with
  | nil => exact Or.inl h
  | cons hd rest ih =>
    cases hc : classifyEvent hd with
    | skip =>
      have hstep : getFilesLoop (hd :: rest) acc log
          = getFilesLoop rest acc log := by
        rw [getFilesLoop, hc]
      rw [hstep] at h
      rcases ih acc log h with h2 | ⟨ev, hev, hadd⟩
      · exact Or.inl h2
      · exact Or.inr ⟨ev, List.mem_cons_of_mem _ hev, hadd⟩
    | warn m =>
      have hstep : getFilesLoop (hd :: rest) acc log
          = getFilesLoop rest acc (log ++ [m]) := by
        rw [getFilesLoop, hc]
      rw [hstep] at h
      rcases ih acc _ h with h2 | ⟨ev, hev, hadd⟩
      · exact Or.inl h2
      · exact Or.inr ⟨ev, List.mem_cons_of_mem _ hev, hadd⟩
    | add rel sz =>
      have hstep : getFilesLoop (hd :: rest) acc log
          = getFilesLoop rest (insertFile acc rel sz) log := by
        rw [getFilesLoop, hc]
      rw [hstep] at h
      rcases ih _ log h with h2 | ⟨ev, hev, hadd⟩
      · rcases mem_insertFile acc p rel sz s h2 with h3 | ⟨hp, hs⟩
        · exact Or.inl h3
        · refine Or.inr ⟨hd, List.mem_cons_self _ _, ?_⟩
          rw [hc, hp, hs]
      · exact Or.inr ⟨ev, List.mem_cons_of_mem _ hev, hadd⟩

/-- Inversion: an event records a file only if it is a delivered file whose
stat succeeded as a non-directory, whose binary check succeeded with
`false`, and whose relative path resolved. -/
lemma classifyEvent_add_inv (ev : WalkEvent) (rel : String) (sz : Int)
    (h : classifyEvent ev = .add rel sz) :
    ∃ f info, ev = .file f ∧ f.statRes = .ok info ∧ info.isDir = false ∧
      f.binRes = .ok false ∧ f.relRes = .ok rel ∧ sz = info.size := by
  cases ev with
  | walkError e => simp [classifyEvent] at h
  | file f =>
    rw [classifyEvent] at h
    split at h
    · simp at h
    · rename_i info hstat
      split at h
      · simp at h
      · rename_i hdir
        split at h
        · simp at h
        · simp at h
        · rename_i xbin hbin
          split at h
          · simp at h
          · rename_i rel2 hrel
            injection h with h1 h2
            subst h1
            exact ⟨f, info, rfl, hstat, by simpa using hdir, hbin, hrel, h2.symm⟩

/-- `GetFiles` in explicit components. -/
lemma GetFiles_eq (events : List WalkEvent) :
    GetFiles events
      = (Except.ok (getFilesLoop events [] []).fst,
         (getFilesLoop events [] []).snd) := by
  rcases h : getFilesLoop events [] [] with ⟨files, log⟩
  rw [GetFiles, h]

/-- C2 amended: a binary-check error on an individual file is logged as a
warning and the file is skipped without aborting the scan; a failure to walk
the directory tree is likewise only logged by the error handler (which
returns `true`, i.e. continue) — `GetFiles` always returns a `nil` error,
never propagating a walk failure.  Every returned catalog entry comes from a
delivered file that passed the stat, directory, binary and relative-path
checks. -/
theorem GetFiles_never_aborts (events : List WalkEvent) :
    (∃ m, (GetFiles events).fst = Except.ok m) ∧
    (∀ e, WalkEvent.walkError e ∈ events →
        ("Warning: " ++ e) ∈ (GetFiles events).snd) ∧
    (∀ f info e, WalkEvent.file f ∈ events → f.statRes = .ok info →
        info.isDir = false → f.binRes = .error e →
        ("Warning: Could not check if file is binary " ++ f.location
          ++ ": " ++ e) ∈ (GetFiles events).snd) ∧
    (∀ m, (GetFiles events).fst = Except.ok m →
        ∀ p sz, (p, sz) ∈ m →
          ∃ f info, WalkEvent.file f ∈ events ∧ f.statRes = .ok info ∧
            info.isDir = false ∧ f.binRes = .ok false ∧
            f.relRes = .ok p ∧ sz = info.size) := by
  refine ⟨⟨(getFilesLoop events [] []).fst, by rw [GetFiles_eq]⟩, ?_, ?_, ?_⟩
  · intro e he
    rw [GetFiles_eq]
    exact getFilesLoop_warn_logged events [] [] (.walkError e) _ he rfl
  · intro f info e hf hstat hdir hbin
    have hc : classifyEvent (.file f)
        = .warn ("Warning: Could not check if file is binary "
          ++ f.location ++ ": " ++ e) := by
      simp [classifyEvent, hstat, hdir, hbin]
    rw [GetFiles_eq]
    exact getFilesLoop_warn_logged events [] [] (.file f) _ hf hc
  · intro m hm p sz hp
    rw [GetFiles_eq] at hm
    have hm2 : (getFilesLoop events [] []).fst = m := by
      injection hm with h1
    rw [← hm2] at hp
    rcases getFilesLoop_mem events [] [] p sz hp with h | ⟨ev, hev, hadd⟩
    · simp at h
    · obtain ⟨f, info, hevf, hstat, hdir, hbin, hrel, hsz⟩ :=
        classifyEvent_add_inv ev p sz hadd
      exact ⟨f, info, hevf ▸ hev, hstat, hdir, hbin, hrel, hsz⟩

/-- Witness for the amended C2: one walk error, one file with a failing
binary check, one surviving file. -/
theorem GetFiles_never_aborts_witness :
    ("Warning: boom" ∈ (GetFiles
        [.walkError "boom",
         .file ⟨"/r/bad.go", .ok ⟨false, 7⟩, .error "denied", .ok "bad.go"⟩,
         .file ⟨"/r/ok.go", .ok ⟨false, 5⟩, .ok false, .ok "ok.go"⟩]).snd) ∧
    ("Warning: Could not check if file is binary /r/bad.go: denied"
      ∈ (GetFiles
        [.walkError "boom",
         .file ⟨"/r/bad.go", .ok ⟨false, 7⟩, .error "denied", .ok "bad.go"⟩,
         .file ⟨"/r/ok.go", .ok ⟨false, 5⟩, .ok false, .ok "ok.go"⟩]).snd) :=
  have h := GetFiles_never_aborts
    [.walkError "boom",
     .file ⟨"/r/bad.go", .ok ⟨false, 7⟩, .error "denied", .ok "bad.go"⟩,
     .file ⟨"/r/ok.go", .ok ⟨false, 5⟩, .ok false, .ok "ok.go"⟩]
  ⟨h.2.1 "boom" (by simp),
   h.2.2.1 ⟨"/r/bad.go", .ok ⟨false, 7⟩, .error "denied", .ok "bad.go"⟩
     ⟨false, 7⟩ "denied" (by simp) rfl rfl rfl⟩

/-! ## Configuration: internal/config/config.go -/

/-- `DefaultMaxContextSize` from config.go: 200KB in bytes. -/
def DefaultMaxContextSize : Int := 200000

/-- The configuration struct. -/
structure Config where
  MaxContextSize : Int
  AnthropicKey : String

/-- Digit run of Go `strconv.Atoi`: at least one character, all ASCII
digits, accumulated in base 10. -/
def parseDigitsAux : List Char → Nat → Option Nat
  | [], acc => some acc
  | c :: rest, acc =>
    if '0' ≤ c ∧ c ≤ '9' then
      parseDigitsAux rest (acc * 10 + (c.toNat - '0'.toNat))
    else none

/-- Digit parsing with the non-empty requirement of `strconv.Atoi`. -/
def parseDigits : List Char → Option Nat
  | [] => none
  | l => parseDigitsAux l 0

/-- Go `strconv.Atoi`: optional sign, then a non-empty digit run; a syntax
error or a value outside the 64-bit `int` range yields an error (`none`). -/
def goAtoi (s : List Char) : Option Int :=
  let signed : Bool × List Char :=
    match s with
    | '-' :: rest => (true, rest)
    | '+' :: rest => (false, rest)
    | _ => (false, s)
  match parseDigits signed.2 with
  | none => none
  | some n =>
    let v : Int := if signed.1 then -(n : Int) else (n : Int)
    if v < -(2 ^ 63) ∨ (2 ^ 63 - 1) < v then none else some v

/-- `config.New`: start from the default budget and the API key taken from
the environment; an explicitly set, numerically valid `REPOCONTEXT_MAX_SIZE`
overrides the budget, anything else keeps the default.  The two arguments
are the values of the two environment variables (`""` means unset, as with
`os.Getenv`). -/
def Config.New (anthropicKeyEnv maxSizeEnv : String) : Config :=
  let cfg : Config :=
    { MaxContextSize := DefaultMaxContextSize, AnthropicKey := anthropicKeyEnv }
  if maxSizeEnv ≠ "" then
    match goAtoi maxSizeEnv.data with
    | some size => { cfg with MaxContextSize := size }
    | none => cfg
  else cfg

/-- C9: with `REPOCONTEXT_MAX_SIZE` set to the non-numeric `"abc"`,
configuration construction falls back to the default budget of 200000
bytes. -/
theorem ConfigNew_nonnumeric_fallback (key : String) :
    (Config.New key "abc").MaxContextSize = 200000 ∧
    DefaultMaxContextSize = 200000 :=
  ⟨rfl, rfl⟩

/-! ## Binary Classifier: internal/git/git.go

`isBinaryFile` opens the file and reads the first 512 bytes; we embed the
classification of that byte sample (the I/O and the error-on-open path are
outside the pure classification).  Bytes are `Nat` values below 256. -/

/-- The fixed binary magic signatures (ELF, DOS MZ, ZIP, GZIP, PNG, JPEG,
GIF, BMP, PDF). -/
def binarySignatures : List (List Nat) :=
  [[0x7F, 0x45, 0x4C, 0x46],
   [0x4D, 0x5A],
   [0x50, 0x4B, 0x03, 0x04],
   [0x1F, 0x8B],
   [0x89, 0x50, 0x4E, 0x47],
   [0xFF, 0xD8, 0xFF],
   [0x47, 0x49, 0x46, 0x38],
   [0x42, 0x4D],
   [0x25, 0x50, 0x44, 0x46]]

/-- Heuristic 1: `bytes.HasPrefix` against any known signature. -/
def hasBinarySignature (buf : List Nat) : Bool :=
  binarySignatures.any (fun sig => sig.isPrefixOf buf)

/-- `calculateEntropy` from git.go: Shannon entropy (bits per byte) of the
byte-frequency distribution; the empty sample is explicitly 0.  The Go
`float64` arithmetic is idealised over the reals. -/
noncomputable def calculateEntropy (data : List Nat) : ℝ :=
  if data.length = 0 then 0
  else ∑ b ∈ data.toFinset,
    -((data.count b : ℝ) / data.length
      * Real.logb 2 ((data.count b : ℝ) / data.length))

/-- Heuristic 4, numerator: bytes that are printable ASCII (32–126) or the
control characters tab, LF, VT, FF, CR (9–13). -/
def textCharCount (buf : List Nat) : Nat :=
  (buf.filter (fun b =>
    decide (32 ≤ b ∧ b ≤ 126) || decide (9 ≤ b ∧ b ≤ 13))).length

/-- Heuristic 4: text-character ratio below 0.7 ⇒ binary.  On the empty
sample the Go code computes the IEEE-754 division `0.0/0.0 = NaN`, and
`NaN < 0.7` is false, so the heuristic never fires there; the
`buf.length ≠ 0` conjunct models exactly that comparison outcome. -/
def ratioBinary (buf : List Nat) : Prop :=
  buf.length ≠ 0 ∧ (textCharCount buf : ℝ) / (buf.length : ℝ) < 0.7

/-- The classification computed by `isBinaryFile` on a byte sample: any of
the four heuristics — magic signature, null byte, entropy above 7.0,
text-character ratio below 0.7 — marks the file binary. -/
def isBinaryFile (buf : List Nat) : Prop :=
  hasBinarySignature buf = true ∨ 0 ∈ buf ∨
    7 < calculateEntropy buf ∨ ratioBinary buf

/-- C3: the empty byte sample is classified as text: no heuristic fires, the
entropy computation returns 0 through its explicit empty-sample branch, and
the ratio heuristic does not fire (the `0.0/0.0 = NaN` comparison in the Go
code is false, so the zero-length division causes no fault and no binary
verdict). -/
theorem isBinaryFile_empty :
    ¬ isBinaryFile [] ∧ calculateEntropy [] = 0 ∧ ¬ ratioBinary [] := by
  have hent : calculateEntropy [] = 0 := by simp [calculateEntropy]
  refine ⟨?_, hent, fun h => h.1 rfl⟩
  rintro (h | h | h | h)
  · exact absurd h (by decide)
  · simp at h
  · rw [hent] at h
    norm_num at h
  · exact h.1 rfl

/-! ## Documentation Cache/Generator: internal/docs/docs.go

The docs directory is a record of optional file contents; the metadata file
is `none` (missing), `some (.error s)` (present but not valid JSON metadata)
or `some (.ok m)` (present and parsing to `m`).  The text-generation backend
is an injected function from the prompt to the produced text or a failure,
and every operation reports the number of backend calls it performed.
`GeneratedAt` is kept as its RFC3339 string. -/

/-- The `Metadata` struct persisted as `metadata.json`. -/
structure Metadata where
  CommitHash : String
  GeneratedAt : String
  ModelUsed : String
  FileVersions : List (String × String)
  Deduplicated : Bool

/-- File-name constants from docs.go. -/
def OverviewFileName : String := "01_overview.md"

def GettingStartedFileName : String := "02_getting_started.md"

def UsageFileName : String := "03_usage.md"

def FullDocFileName : String := "full.md"

def MetadataFileName : String := "metadata.json"

/-- Contents of the docs directory. -/
structure DocsFS where
  overview : Option String
  gettingStarted : Option String
  usage : Option String
  fullDoc : Option String
  metaFile : Option (Except String Metadata)

/-- The `Generator` state: its `Meta` pointer (after first assignment), its
`Files` content map, and the docs directory it writes to.  `RepoPath` and
`DocsPath` are fixed path strings with no bearing on the claims. -/
structure GenState where
  meta : Metadata
  files : List (String × String)
  fs : DocsFS

/-- `isCacheValid` (docs.go lines 79–96): the cache is valid exactly when
the metadata file can be read and unmarshals as `Metadata`; on success the
parsed value is installed as `g.Meta`.  The commit hash and file versions
are not compared to the current repository state (the two TODO comments in
the source). -/
def isCacheValid (fs : DocsFS) : Option Metadata :=
  match fs.metaFile with
  | none => none
  | some (.error _) => none
  | some (.ok m) => some m

/-- `loadFromCache`: read the three section files and the full document back
in order, failing on the first one that cannot be read. -/
def loadFromCache (fs : DocsFS) : Except String Unit :=
  match fs.overview with
  | none => .error ("failed to read cached section " ++ OverviewFileName)
  | some _ =>
    match fs.gettingStarted with
    | none => .error ("failed to read cached section " ++ GettingStartedFileName)
    | some _ =>
      match fs.usage with
      | none => .error ("failed to read cached section " ++ UsageFileName)
      | some _ =>
        match fs.fullDoc with
        | none => .error ("failed to read cached section " ++ FullDocFileName)
        | some _ => .ok ()

/-- `os.WriteFile` into the docs directory, by section file name. -/
def writeSection (fs : DocsFS) (name content : String) : DocsFS :=
  if name = OverviewFileName then { fs with overview := some content }
  else if name = GettingStartedFileName then { fs with gettingStarted := some content }
  else if name = UsageFileName then { fs with usage := some content }
  else if name = FullDocFileName then { fs with fullDoc := some content }
  else fs

/-- `g.Files[path]` (missing keys give the empty string, Go's zero value). -/
def lookupContent : List (String × String) → String → String
  | [], _ => ""
  | (p, c) :: rest, q => if p = q then c else lookupContent rest q

/-- Insertion step of `sort.Strings`. -/
def insertSorted (x : String) : List String → List String
  | [] => [x]
  | y :: rest => if x ≤ y then x :: y :: rest else y :: insertSorted x rest

/-- `sort.Strings`: ascending lexicographic sort. -/
def sortStrings : List String → List String
  | [] => []
  | x :: rest => insertSorted x (sortStrings rest)

/-- `formatFileList`: the sorted paths joined by newlines. -/
def formatFileList (files : List (String × String)) : String :=
  String.intercalate "\n" (sortStrings (files.map Prod.fst))

/-- `formatFileContents`: sorted contents with `=== path ===` delimiters. -/
def formatFileContents (files : List (String × String)) : String :=
  String.join ((sortStrings (files.map Prod.fst)).map (fun path =>
    "\n=== " ++ path ++ " ===\n" ++ lookupContent files path ++ "\n"))

/-- `buildOverviewPrompt` from docs.go. -/
def buildOverviewPrompt (files : List (String × String)) : String :=
  "You are analyzing a software repository to create comprehensive documentation.
Based on the repository files provided below, create a detailed overview document in markdown format that includes:

1. A clear description of what the project does
2. Key features and capabilities
3. High-level architecture/design
4. Technologies used and dependencies
5. Project status (based on what you can determine from the code)

Please ensure the output is well-formatted markdown with appropriate headers and sections.
Use code examples from the files where relevant.

Repository files:
" ++ formatFileList files ++ "

Contents:
" ++ formatFileContents files

/-- `buildGettingStartedPrompt` from docs.go. -/
def buildGettingStartedPrompt (files : List (String × String)) : String :=
  "Based on the repository files provided below, create a comprehensive \"Getting Started\" guide in markdown format that includes:

1. Prerequisites and system requirements
2. Installation instructions (step by step)
3. Basic setup and configuration
4. A simple \"Hello World\" or basic usage example
5. Common gotchas or important notes for new users

Format the output as clear, well-structured markdown with appropriate sections and code blocks.
Use actual examples from the codebase where possible.

Repository files:
" ++ formatFileList files ++ "

Contents:
" ++ formatFileContents files

/-- `buildUsagePrompt` from docs.go. -/
def buildUsagePrompt (files : List (String × String)) : String :=
  "Based on the repository files provided below, create a detailed usage guide in markdown format that includes:

1. Common use cases and examples
2. API documentation (if applicable)
3. Configuration options and their effects
4. Best practices and recommendations
5. Advanced usage examples

Use actual code examples from the repository where possible.
Format the output as clear, well-structured markdown with appropriate sections and code blocks.

Repository files:
" ++ formatFileList files ++ "

Contents:
" ++ formatFileContents files

/-- `generateSection`: build the prompt for a known section name and issue
one backend call; an unknown name is an error without any call.  The second
component counts the backend calls performed. -/
def generateSection (files : List (String × String))
    (llm : String → Except String String) (sectionName : String) :
    Except String String × Nat :=
  if sectionName = OverviewFileName then (llm (buildOverviewPrompt files), 1)
  else if sectionName = GettingStartedFileName then
    (llm (buildGettingStartedPrompt files), 1)
  else if sectionName = UsageFileName then (llm (buildUsagePrompt files), 1)
  else (.error ("unknown section: " ++ sectionName), 0)

/-- The section loop of `generateDocs`: generate and write each section in
order, stopping at the first failure. -/
def generateSectionsLoop (files : List (String × String))
    (llm : String → Except String String) :
    DocsFS → List String → Except String Unit × DocsFS × Nat
  | fs, [] => (.ok (), fs, 0)
  | fs, s :: rest =>
    match generateSection files llm s with
    | (.error e, n) =>
      (.error ("failed to generate section " ++ s ++ ": " ++ e), fs, n)
    | (.ok content, n) =>
      match generateSectionsLoop files llm (writeSection fs s content) rest with
      | (res, fs2, n2) => (res, fs2, n + n2)

/-- `generateFullDoc`: read the three section files back and write their
concatenation (each followed by a blank line) as the full document. -/
def generateFullDoc (fs : DocsFS) : Except String DocsFS :=
  match fs.overview with
  | none => .error ("failed to read section " ++ OverviewFileName)
  | some ov =>
    match fs.gettingStarted with
    | none => .error ("failed to read section " ++ GettingStartedFileName)
    | some gs =>
      match fs.usage with
      | none => .error ("failed to read section " ++ UsageFileName)
      | some us =>
        .ok (writeSection fs FullDocFileName
          (ov ++ "\n\n" ++ gs ++ "\n\n" ++ us ++ "\n\n"))

/-- `generateDocs`: install the file contents read from the repository into
`g.Files` (the per-file disk reads are modelled by the given association
list), generate the three sections, then assemble the full document. -/
def generateDocs (g : GenState) (contents : List (String × String))
    (llm : String → Except String String) :
    Except String Unit × GenState × Nat :=
  let g2 := { g with files := contents }
  match generateSectionsLoop contents llm g2.fs
      [OverviewFileName, GettingStartedFileName, UsageFileName] with
  | (.error e, fs2, n) => (.error e, { g2 with fs := fs2 }, n)
  | (.ok _, fs2, n) =>
    match generateFullDoc fs2 with
    | .error e => (.error e, { g2 with fs := fs2 }, n)
    | .ok fs3 => (.ok (), { g2 with fs := fs3 }, n)

/-- `LoadOrGenerateDocs` (docs.go lines 62–77): serve the cache whenever
`isCacheValid` accepts it (installing the parsed metadata and issuing zero
backend calls), otherwise install the passed metadata, run the cold
generation path, and persist the metadata on success. -/
def LoadOrGenerateDocs (g : GenState) (contents : List (String × String))
    (meta : Metadata) (llm : String → Except String String) :
    Except String Unit × GenState × Nat :=
  match isCacheValid g.fs with
  | some m => (loadFromCache g.fs, { g with meta := m }, 0)
  | none =>
    let g2 := { g with meta := meta }
    match generateDocs g2 contents llm with
    | (.error e, g3, n) => (.error e, g3, n)
    | (.ok _, g3, n) =>
      (.ok (),
       { g3 with fs := { g3.fs with metaFile := some (.ok g3.meta) } }, n)

/-- The cleanup prompt of `CleanupDuplicates`, with the full document
appended. -/
def cleanupPrompt (content : String) : String :=
  "You are cleaning up a combined markdown documentation file.
The content is currently duplicated across Overview, Getting Started, and Usage sections.

Please:
1. Keep only ONE top-level title
2. Consolidate similar sections (e.g. combine all installation instructions into one section)
3. Remove duplicate explanations while keeping the most detailed version
4. Maintain a clear, logical flow from overview -> setup -> basic usage -> advanced usage
5. Preserve ALL unique examples, especially in the advanced usage section
6. Keep ALL technical information and details
7. Ensure section headers follow a logical hierarchy

Original sections to combine:
1. Overview & Features (#)
2. Getting Started (##)
3. Usage Guide (##)

Please output a single, well-structured markdown document with no duplicate information.
Keep the most comprehensive version of any duplicated content.

Content to clean up:
" ++ content

/-- `CleanupDuplicates` (docs.go lines 263–313): a no-op when the metadata
already says deduplicated; otherwise read the full document, issue one
backend call, overwrite the full document with the cleaned text, set the
flag and persist the metadata.  Any failure before a write leaves the state
untouched. -/
def CleanupDuplicates (g : GenState)
    (llm : String → Except String String) :
    Except String Unit × GenState × Nat :=
  if g.meta.Deduplicated then (.ok (), g, 0)
  else
    match g.fs.fullDoc with
    | none => (.error "failed to read full documentation", g, 0)
    | some content =>
      match llm (cleanupPrompt content) with
      | .error e => (.error ("failed to clean documentation: " ++ e), g, 1)
      | .ok cleaned =>
        let fs2 := writeSection g.fs FullDocFileName cleaned
        let meta2 := { g.meta with Deduplicated := true }
        (.ok (), { g with meta := meta2
                          fs := { fs2 with metaFile := some (.ok meta2) } }, 1)

/-- The state produced by the branch of `CleanupDuplicates` that performed
the cleaning call successfully. -/
def cleanedState (g : GenState) (cleaned : String) : GenState :=
  let fs2 := writeSection g.fs FullDocFileName cleaned
  let meta2 := { g.meta with Deduplicated := true }
  { g with meta := meta2, fs := { fs2 with metaFile := some (.ok meta2) } }

/-- `CleanupDuplicates` in the not-yet-deduplicated, readable-document case,
with the backend call exposed. -/
lemma CleanupDuplicates_step (g : GenState)
    (llm : String → Except String String) (content : String)
    (hd : ¬ g.meta.Deduplicated = true) (hfd : g.fs.fullDoc = some content) :
    CleanupDuplicates g llm
      = match llm (cleanupPrompt content) with
        | .error e => (.error ("failed to clean documentation: " ++ e), g, 1)
        | .ok cleaned => (.ok (), cleanedState g cleaned, 1) := by
  rw [CleanupDuplicates, if_neg hd]
  simp only [hfd]
  cases llm (cleanupPrompt content) with
  | error e => rfl
  | ok cleaned => rfl

/-- A successful `CleanupDuplicates` run always leaves the deduplicated flag
set. -/
lemma CleanupDuplicates_ok_dedup (g : GenState)
    (llm : String → Except String String) (g2 : GenState) (n : Nat)
    (h : CleanupDuplicates g llm = (.ok (), g2, n)) :
    g2.meta.Deduplicated = true := by
  by_cases hd : g.meta.Deduplicated = true
  · have hstep : CleanupDuplicates g llm = (.ok (), g, 0) := by
      rw [CleanupDuplicates, if_pos hd]
    rw [hstep] at h
    have hg : g = g2 := congrArg (fun t => t.2.1) h
    rw [← hg]
    exact hd
  · cases hfd : g.fs.fullDoc with
    | none =>
      have hstep : CleanupDuplicates g llm
          = (.error "failed to read full documentation", g, 0) := by
        rw [CleanupDuplicates, if_neg hd, hfd]
      rw [hstep] at h
      simp at h
    | some content =>
      rw [CleanupDuplicates_step g llm content hd hfd] at h
      cases hllm : llm (cleanupPrompt content) with
      | error e =>
        rw [hllm] at h
        simp at h
      | ok cleaned =>
        rw [hllm] at h
        have hg : cleanedState g cleaned = g2 := congrArg (fun t => t.2.1) h
        rw [← hg]
        rfl

/-- C6: after any successful `CleanupDuplicates` run (which leaves the
deduplicated flag set to true), running `CleanupDuplicates` again on the
resulting state is a no-op: it succeeds, performs zero external
text-generation calls, and leaves the whole state — in particular the
full-document file — unchanged. -/
theorem CleanupDuplicates_second_run_noop (g : GenState)
    (llm llm2 : String → Except String String) (g2 : GenState) (n : Nat)
    (h : CleanupDuplicates g llm = (.ok (), g2, n)) :
    CleanupDuplicates g2 llm2 = (.ok (), g2, 0) := by
  have hded := CleanupDuplicates_ok_dedup g llm g2 n h
  rw [CleanupDuplicates, if_pos hded]

/-- Sample metadata for the current repository snapshot. -/
def sampleMeta : Metadata :=
  ⟨"deadbeef", "2024-01-01T00:00:00Z", "claude-3-5-sonnet-20240620", [], false⟩

/-- Sample docs directory with all files present. -/
def sampleFS : DocsFS :=
  ⟨some "ov", some "gs", some "us", some "full", some (.ok sampleMeta)⟩

/-- Sample generator state before deduplication. -/
def sampleGen : GenState := ⟨sampleMeta, [], sampleFS⟩

/-- `sampleMeta` with the deduplicated flag set. -/
def sampleMetaDedup : Metadata := { sampleMeta with Deduplicated := true }

/-- The generator state left by a successful cleanup of `sampleGen` with
response `"cleaned"`. -/
def sampleGenAfter : GenState :=
  ⟨sampleMetaDedup, [],
   { sampleFS with
     fullDoc := some "cleaned"
     metaFile := some (.ok sampleMetaDedup) }⟩

/-- Witness for C6: a successful first run on `sampleGen`, then a second run
with a backend stub that would fail if it were ever called. -/
theorem CleanupDuplicates_second_run_noop_witness :
    CleanupDuplicates sampleGenAfter (fun _ => .error "backend down")
      = (.ok (), sampleGenAfter, 0) :=
  CleanupDuplicates_second_run_noop sampleGen (fun _ => .ok "cleaned")
    (fun _ => .error "backend down") sampleGenAfter 1 rfl

/-- C7: the cache hit is decided exactly by "the metadata file exists and
parses" — for every parsed value `m`, whatever its commit hash and however
it compares to the current repository state or the passed metadata, the hit
path is taken: the cached sections are read back, the parsed metadata is
installed, and zero backend calls are made, skipping all three section
generation calls. -/
theorem cache_hit_iff_metadata_parses (g : GenState)
    (contents : List (String × String)) (meta : Metadata)
    (llm : String → Except String String) :
    ((isCacheValid g.fs).isSome ↔ ∃ m, g.fs.metaFile = some (Except.ok m)) ∧
    (∀ m, g.fs.metaFile = some (Except.ok m) →
      LoadOrGenerateDocs g contents meta llm
        = (loadFromCache g.fs, { g with meta := m }, 0)) := by
  constructor
  · constructor
    · intro h
      cases hmf : g.fs.metaFile with
      | none =>
        rw [isCacheValid, hmf] at h
        simp at h
      | some r =>
        cases r with
        | error s =>
          rw [isCacheValid, hmf] at h
          simp at h
        | ok m => exact ⟨m, rfl⟩
    · rintro ⟨m, hm⟩
      rw [isCacheValid, hm]
      rfl
  · intro m hm
    have hvalid : isCacheValid g.fs = some m := by
      rw [isCacheValid, hm]
    rw [LoadOrGenerateDocs, hvalid]

/-- Stale cached metadata: different commit hash, model and flag from the
current snapshot's `sampleMeta`. -/
def staleCachedMeta : Metadata :=
  ⟨"cafebabe", "2023-06-01T00:00:00Z", "old-model", [], true⟩

/-- A docs directory holding a parseable but stale metadata file. -/
def staleCacheFS : DocsFS :=
  ⟨some "ov", some "gs", some "us", some "full", some (.ok staleCachedMeta)⟩

/-- Generator state over the stale cache. -/
def staleCacheGen : GenState := ⟨sampleMeta, [], staleCacheFS⟩

/-- Witness for C7: the stored metadata has a commit hash different from the
current one, yet the hit is served with zero backend calls. -/
theorem cache_hit_iff_metadata_parses_witness :
    LoadOrGenerateDocs staleCacheGen [] sampleMeta (fun _ => .error "no backend")
      = (loadFromCache staleCacheGen.fs,
         { staleCacheGen with meta := staleCachedMeta }, 0) :=
  (cache_hit_iff_metadata_parses staleCacheGen [] sampleMeta
    (fun _ => .error "no backend")).2 staleCachedMeta rfl

/-- C10: when the deduplicated flag is false, the full document is readable,
and the backend call fails, `CleanupDuplicates` returns the wrapped error
after exactly that one call and the observable state is unchanged: the
full-document file is not overwritten, the deduplicated flag stays false,
and the metadata file is not rewritten (the returned state is the input
state). -/
theorem CleanupDuplicates_failure_preserves_state (g : GenState)
    (llm : String → Except String String) (content e : String)
    (h1 : g.meta.Deduplicated = false) (h2 : g.fs.fullDoc = some content)
    (h3 : llm (cleanupPrompt content) = .error e) :
    CleanupDuplicates g llm
      = (.error ("failed to clean documentation: " ++ e), g, 1) := by
  rw [CleanupDuplicates_step g llm content (by rw [h1]; simp) h2, h3]

/-- Witness for C10 on `sampleGen` with a failing backend. -/
theorem CleanupDuplicates_failure_preserves_state_witness :
    CleanupDuplicates sampleGen (fun _ => .error "rate limited")
      = (.error ("failed to clean documentation: " ++ "rate limited"),
         sampleGen, 1) :=
  CleanupDuplicates_failure_preserves_state sampleGen
    (fun _ => .error "rate limited") "full" "rate limited" rfl rfl rfl

end RepoContext
